import Mathlib

/-
Verification of the streaming process runner in
`jupyter_cpp_kernel/kernel.py` (class `RealTimeSubprocess` and the
poll/flush loops of `CppKernel.do_execute`).

The embedding is shallow:

* A byte is a `Nat`; a chunk (one `stream.read(4096)` result, or one
  queue element) is a `List Nat`.
* A pipe stream is modelled by the list of results that successive
  `stream.read(4096)` calls return: either bytes (the empty chunk means
  end-of-stream) or a raised I/O error.
* `Queue` objects are lists of chunks: `put` appends at the back,
  `get_nowait` removes at the front (returning `none` for the
  `queue.Empty` exception), `qsize` is the length.
* The drain-thread body `RealTimeSubprocess._enqueue_output` and the
  flush `RealTimeSubprocess.write_contents` are translated line by line.
  Concurrent `put`s racing the flush's `get_nowait` loop are modelled by
  an explicit list of arrivals interleaved before each `get_nowait`.
* Callback invocations and queue operations are also mirrored as action
  traces so that ordering claims (who calls the callbacks, and in which
  order) are statable.
-/

namespace JupyterCpp

/-- A byte. -/
abbrev Byte := Nat

/-- A chunk of bytes: one read result or one queue element. -/
abbrev Chunk := List Byte

/-- Which of the two redirected streams of the child process. -/
inductive StreamTag where
  | out
  | err
deriving DecidableEq, Repr

/-- One result of a `stream.read(4096)` call: either bytes (the empty
chunk `[]` models `b''`, i.e. end-of-stream) or a raised I/O error. -/
inductive ReadResult where
  | bytes (c : Chunk)
  | readError
deriving DecidableEq, Repr

/-- How a drain-task body ends. -/
inductive TaskEnd where
  | closedStream
  | raisedError
  | stillRunning
deriving DecidableEq, Repr

/-- Final state of one drain-task body run: the queue contents it leaves
behind and how the body ended. -/
structure EnqResult where
  queue : List Chunk
  outcome : TaskEnd
deriving DecidableEq, Repr

/-- Shallow embedding of `RealTimeSubprocess._enqueue_output(stream, queue)`:

    for line in iter(lambda: stream.read(4096), b''):
        queue.put(line)
    stream.close()

The first argument is the stream (successive `read` results); the second
is the queue at entry.  The `iter` sentinel stops the loop at the first
`b''` read, after which `stream.close()` runs (`closedStream`).  A raised
read error aborts the loop before `stream.close()` (`raisedError`).  An
exhausted read list means the task is still blocked in `read`
(`stillRunning`). -/
def enqueue_output : List ReadResult → List Chunk → EnqResult
  | [], q => ⟨q, .stillRunning⟩
  | .bytes c :: rest, q =>
      if c = [] then ⟨q, .closedStream⟩
      else enqueue_output rest (q ++ [c])
  | .readError :: _, q => ⟨q, .raisedError⟩

/-- Embedding of `queue.get_nowait()`: `none` models the `queue.Empty`
exception. -/
def get_nowait (q : List Chunk) : Option (Chunk × List Chunk) :=
  match q with
  | [] => none
  | c :: rest => some (c, rest)

/-- The loop body of `read_all_from_queue` in
`RealTimeSubprocess.write_contents`:

    size = queue.qsize()
    while size != 0:
        res += queue.get_nowait()
        size -= 1

`read_loop n q res` runs `n` remaining iterations on queue `q` with
accumulator `res`. -/
def read_loop : Nat → List Chunk → Chunk → Option (Chunk × List Chunk)
  | 0, q, res => some (res, q)
  | n + 1, q, res =>
      match get_nowait q with
      | none => none
      | some (c, q1) => read_loop n q1 (res ++ c)

/-- Embedding of the inner function `read_all_from_queue(queue)` of
`RealTimeSubprocess.write_contents`: snapshot `qsize`, then pop that many
chunks, concatenating them. -/
def read_all_from_queue (q : List Chunk) : Option (Chunk × List Chunk) :=
  read_loop q.length q []

/-- Result of one `write_contents` call: the argument passed to each
callback (`none` when the callback was not invoked, because the drained
contents were empty) and the queue contents left behind. -/
structure FlushResult where
  stdoutSent : Option Chunk
  stderrSent : Option Chunk
  stdoutQueue : List Chunk
  stderrQueue : List Chunk
deriving DecidableEq, Repr

/-- Shallow embedding of `RealTimeSubprocess.write_contents(self)`:

    stdout_contents = read_all_from_queue(self._stdout_queue)
    if stdout_contents:
        self._write_to_stdout(stdout_contents)
    stderr_contents = read_all_from_queue(self._stderr_queue)
    if stderr_contents:
        self._write_to_stderr(stderr_contents)

Python truthiness of `bytes` is non-emptiness.  The function never waits
for data: the only queue operation it uses is the non-blocking
`get_nowait`. -/
def write_contents (outq errq : List Chunk) : Option FlushResult := do
  let r1 ← read_all_from_queue outq
  let r2 ← read_all_from_queue errq
  some ⟨if r1.1 = [] then none else some r1.1,
        if r2.1 = [] then none else some r2.1,
        r1.2, r2.2⟩

/-- The drain loop of `read_all_from_queue`, with concurrent drain-task
`put`s racing it: before the i-th `get_nowait`, the chunks `arrs[i]` (if
any) are appended at the back of the queue by the drain task. -/
def read_loop_conc : Nat → List Chunk → Chunk → List (List Chunk) →
    Option (Chunk × List Chunk)
  | 0, q, res, _ => some (res, q)
  | n + 1, q, res, arrs =>
      match get_nowait (q ++ arrs.headD []) with
      | none => none
      | some (c, q1) => read_loop_conc n q1 (res ++ c) arrs.tail

/-- `write_contents` with concurrent arrivals: `outArrs` (resp. `errArrs`)
are the chunks the stdout (resp. stderr) drain task appends during the
corresponding `get_nowait` loop, indexed by loop iteration.  `outq` and
`errq` are the queue contents at each loop's `qsize` snapshot. -/
def write_contents_conc (outq errq : List Chunk)
    (outArrs errArrs : List (List Chunk)) : Option FlushResult := do
  let r1 ← read_loop_conc outq.length outq [] outArrs
  let r2 ← read_loop_conc errq.length errq [] errArrs
  some ⟨if r1.1 = [] then none else some r1.1,
        if r2.1 = [] then none else some r2.1,
        r1.2, r2.2⟩

/-- An observable action performed on the shared state: a `queue.put` by a
drain task, a `queue.get_nowait` by `write_contents`, or an invocation of
one of the two consumer callbacks (`self._write_to_stdout` /
`self._write_to_stderr`). -/
inductive Action where
  | put (t : StreamTag) (c : Chunk)
  | got (t : StreamTag) (c : Chunk)
  | callCb (t : StreamTag) (b : Chunk)
deriving DecidableEq, Repr

/-- Whether an action is a `queue.put`. -/
def Action.isPut : Action → Bool
  | .put _ _ => true
  | _ => false

/-- Whether an action is a callback invocation. -/
def Action.isCall : Action → Bool
  | .callCb _ _ => true
  | _ => false

/-- The stream an action belongs to. -/
def Action.tag : Action → StreamTag
  | .put t _ => t
  | .got t _ => t
  | .callCb t _ => t

/-- The actions performed by one run of
`RealTimeSubprocess._enqueue_output` on the stream tagged `t`: the loop
body is `queue.put(line)` and nothing else. -/
def enqueue_output_actions (t : StreamTag) : List ReadResult → List Action
  | [] => []
  | .bytes c :: rest =>
      if c = [] then [] else .put t c :: enqueue_output_actions t rest
  | .readError :: _ => []

/-- The actions performed by one `RealTimeSubprocess.write_contents` call
on queue snapshots `outq` and `errq`: drain the stdout queue, invoke the
stdout callback if the drained bytes are non-empty, then the same for
stderr. -/
def write_contents_actions (outq errq : List Chunk) : List Action :=
  outq.map (Action.got .out) ++
    (if outq.flatten = [] then [] else [Action.callCb .out outq.flatten]) ++
    (errq.map (Action.got .err) ++
      (if errq.flatten = [] then [] else [Action.callCb .err errq.flatten]))

/-- Events of one run of the streaming process runner, at the granularity
at which the delivery claims are stated: a drain task enqueues one chunk
onto its queue, or the caller invokes `write_contents`. -/
inductive Ev where
  | enqOut (c : Chunk)
  | enqErr (c : Chunk)
  | flush
deriving DecidableEq, Repr

/-- Caller-observable state of one `RealTimeSubprocess`: the two queues
and, for each stream, the list of byte sequences delivered so far (one
entry per callback invocation, in order). -/
structure SysState where
  outQ : List Chunk
  errQ : List Chunk
  outDeliv : List Chunk
  errDeliv : List Chunk
deriving DecidableEq, Repr

/-- State right after `RealTimeSubprocess.__init__`: empty queues, nothing
delivered. -/
def SysState.initial : SysState := ⟨[], [], [], []⟩

/-- One event step.  `flush` applies `write_contents` to the current
queues; the delivered sequences are appended to the per-stream delivery
logs (nothing is appended when the callback is not invoked). -/
def step (s : SysState) : Ev → SysState
  | .enqOut c => { s with outQ := s.outQ ++ [c] }
  | .enqErr c => { s with errQ := s.errQ ++ [c] }
  | .flush =>
      match write_contents s.outQ s.errQ with
      | none => s
      | some r =>
          ⟨r.stdoutQueue, r.stderrQueue,
           s.outDeliv ++ r.stdoutSent.toList,
           s.errDeliv ++ r.stderrSent.toList⟩

/-- Run a list of events from a state. -/
def run (s : SysState) (evs : List Ev) : SysState :=
  evs.foldl step s

/-- The chunks the stdout drain task enqueued during a run, in order; by
the pipe semantics their concatenation is exactly what the child wrote to
its standard output. -/
def outChunks (evs : List Ev) : List Chunk :=
  evs.filterMap fun e =>
    match e with
    | .enqOut c => some c
    | _ => none

/-- The chunks the stderr drain task enqueued during a run, in order. -/
def errChunks (evs : List Ev) : List Chunk :=
  evs.filterMap fun e =>
    match e with
    | .enqErr c => some c
    | _ => none

/-- A spawn failure: `subprocess.Popen.__init__` raised (executable
missing, not executable, or resource exhaustion).  The payload
distinguishes failure causes. -/
inductive SpawnError where
  | cannotSpawn (cause : Nat)
deriving DecidableEq, Repr

/-- A side effect performed by `RealTimeSubprocess.__init__`, in program
order: storing the two callbacks, the `super().__init__` (Popen) call,
creating a `Queue`, starting a drain `Thread`. -/
inductive InitEffect where
  | storedCallbacks
  | popenCalled
  | queueCreated (t : StreamTag)
  | threadStarted (t : StreamTag)
deriving DecidableEq, Repr

/-- Whether an init effect creates a retained resource (a queue or a
drain thread). -/
def InitEffect.createsResource : InitEffect → Bool
  | .queueCreated _ => true
  | .threadStarted _ => true
  | _ => false

/-- Shallow embedding of `RealTimeSubprocess.__init__(cmd, ...)`.  The
`spawnResult` argument is the outcome of the `super().__init__` (Popen)
call.  The method stores the callbacks, calls Popen, and only then —
only on success, since a raised exception aborts `__init__` — creates
the stdout queue, starts the stdout thread, creates the stderr queue and
starts the stderr thread.  Returns the constructor outcome together with
the list of effects performed. -/
def RealTimeSubprocess_init (spawnResult : Except SpawnError Unit) :
    Except SpawnError SysState × List InitEffect :=
  match spawnResult with
  | .error e => (.error e, [.storedCallbacks, .popenCalled])
  | .ok _ =>
      (.ok SysState.initial,
       [.storedCallbacks, .popenCalled,
        .queueCreated .out, .threadStarted .out,
        .queueCreated .err, .threadStarted .err])

/-- One interaction of `CppKernel.do_execute` with a spawned
`RealTimeSubprocess`: a `p.poll()` call (returning `none` while the
child runs, `some code` once it exited) or a `p.write_contents()` call. -/
inductive CallEv where
  | pollCall (result : Option Int)
  | flushCall
deriving DecidableEq, Repr

/-- Shallow embedding of the interaction loop `CppKernel.do_execute`
performs on each process it spawns:

    while p.poll() is None:
        p.write_contents()
    p.write_contents()

`n` is the number of `poll` calls that observe the child still running,
`code` the exit code the final `poll` reports. -/
def poll_flush_loop (code : Int) : Nat → List CallEv
  | 0 => [.pollCall (some code), .flushCall]
  | n + 1 => .pollCall none :: .flushCall :: poll_flush_loop code n

/-- The per-process interaction traces of one `CppKernel.do_execute`
call: the compile process is always spawned and driven by the
poll/flush loop; the built binary is spawned (and driven by the same
loop) only when the compiler exited with code 0. -/
def do_execute_process_traces (compileCode : Int) (ncompile : Nat)
    (runCode : Int) (nrun : Nat) : List (List CallEv) :=
  if compileCode ≠ 0 then [poll_flush_loop compileCode ncompile]
  else [poll_flush_loop compileCode ncompile, poll_flush_loop runCode nrun]

/-- The usage pattern the spec requires of the caller: a
`write_contents` call directly after every `poll` that reports the child
still running, and at least one `write_contents` call after a `poll`
reports the child exited. -/
abbrev followsUsagePattern (tr : List CallEv) : Prop :=
  (∀ i : Nat, tr[i]? = some (CallEv.pollCall none) →
    tr[i + 1]? = some CallEv.flushCall) ∧
  (∀ (i : Nat) (c : Int), tr[i]? = some (CallEv.pollCall (some c)) →
    ∃ j : Nat, i < j ∧ tr[j]? = some CallEv.flushCall)

/-! ### Basic facts about the queue-drain loop -/

theorem read_loop_full (q : List Chunk) :
    ∀ res : Chunk, read_loop q.length q res = some (res ++ q.flatten, []) := by
  induction q with
  | nil => intro res; simp [read_loop]
  | cons c rest ih =>
      intro res
      simp only [List.length_cons, read_loop, get_nowait]
      rw [ih (res ++ c)]
      simp

theorem read_all_from_queue_eq (q : List Chunk) :
    read_all_from_queue q = some (q.flatten, []) := by
  simpa using read_loop_full q []

theorem write_contents_eq (outq errq : List Chunk) :
    write_contents outq errq =
      some ⟨if outq.flatten = [] then none else some outq.flatten,
            if errq.flatten = [] then none else some errq.flatten, [], []⟩ := by
  simp [write_contents, read_all_from_queue_eq]

theorem read_loop_conc_spec :
    ∀ (n : Nat) (q : List Chunk) (res : Chunk) (arrs : List (List Chunk)),
      n ≤ q.length →
      read_loop_conc n q res arrs =
        some (res ++ (q.take n).flatten, q.drop n ++ (arrs.take n).flatten) := by
  intro n
  induction n with
  | zero => intro q res arrs _; simp [read_loop_conc]
  | succ n ih =>
      intro q res arrs h
      match q with
      | [] => simp at h
      | c :: rest =>
          have hn : n ≤ rest.length := by
            simpa [Nat.succ_le_succ_iff] using h
          match arrs with
          | [] =>
              simp only [read_loop_conc, List.headD, List.tail, List.append_nil,
                get_nowait]
              rw [ih rest (res ++ c) [] hn]
              simp
          | a :: arest =>
              simp only [read_loop_conc, List.headD, List.tail, List.cons_append,
                get_nowait]
              rw [ih (rest ++ a) (res ++ c) arest
                (Nat.le_trans hn (List.length_append rest a ▸ Nat.le_add_right _ _))]
              rw [List.take_append_of_le_length hn, List.drop_append_of_le_length hn]
              simp

/-- Claim C2: `write_contents` removes, for each buffer, exactly the
chunks present at that buffer's `qsize` snapshot — chunks the drain task
appends during the `get_nowait` loop are left on the queue, never drained
by this call — concatenates the removed chunks into one byte sequence per
stream, invokes each callback only when its sequence is non-empty, and
(being built from `get_nowait` alone) never waits for the child: on empty
buffers, as for a child that writes nothing, neither callback is
invoked. -/
theorem write_contents_drains_snapshot (outq errq : List Chunk)
    (outArrs errArrs : List (List Chunk)) :
    write_contents_conc outq errq outArrs errArrs =
      some ⟨if outq.flatten = [] then none else some outq.flatten,
            if errq.flatten = [] then none else some errq.flatten,
            (outArrs.take outq.length).flatten,
            (errArrs.take errq.length).flatten⟩ ∧
    write_contents outq errq =
      some ⟨if outq.flatten = [] then none else some outq.flatten,
            if errq.flatten = [] then none else some errq.flatten,
            [], []⟩ ∧
    write_contents [] [] = some ⟨none, none, [], []⟩ := by
  refine ⟨?_, write_contents_eq outq errq, by simp [write_contents_eq]⟩
  simp [write_contents_conc,
    read_loop_conc_spec outq.length outq [] outArrs (Nat.le_refl _),
    read_loop_conc_spec errq.length errq [] errArrs (Nat.le_refl _)]

/-! ### The event machine: exactly-once delivery across flush calls -/

theorem run_append (s : SysState) (a b : List Ev) :
    run s (a ++ b) = run (run s a) b :=
  List.foldl_append ..

theorem step_flush_queues (s : SysState) :
    (step s .flush).outQ = [] ∧ (step s .flush).errQ = [] := by
  simp [step, write_contents_eq]

theorem step_deliv_inv (s : SysState) (e : Ev) :
    (step s e).outDeliv.flatten ++ (step s e).outQ.flatten
        = s.outDeliv.flatten ++ s.outQ.flatten ++ (outChunks [e]).flatten ∧
      (step s e).errDeliv.flatten ++ (step s e).errQ.flatten
        = s.errDeliv.flatten ++ s.errQ.flatten ++ (errChunks [e]).flatten := by
  match e with
  | .enqOut c => simp [step, outChunks, errChunks, List.filterMap]
  | .enqErr c => simp [step, outChunks, errChunks, List.filterMap]
  | .flush =>
      simp only [step, write_contents_eq, outChunks, errChunks, List.filterMap]
      constructor
      · by_cases h : s.outQ.flatten = [] <;> simp [h]
      · by_cases h : s.errQ.flatten = [] <;> simp [h]

theorem run_deliv_inv :
    ∀ (evs : List Ev) (s : SysState),
      (run s evs).outDeliv.flatten ++ (run s evs).outQ.flatten
          = s.outDeliv.flatten ++ s.outQ.flatten ++ (outChunks evs).flatten ∧
        (run s evs).errDeliv.flatten ++ (run s evs).errQ.flatten
          = s.errDeliv.flatten ++ s.errQ.flatten ++ (errChunks evs).flatten := by
  intro evs
  induction evs with
  | nil => intro s; simp [run, outChunks, errChunks]
  | cons e rest ih =>
      intro s
      have hstep := step_deliv_inv s e
      have hrest := ih (step s e)
      have hrun : run s (e :: rest) = run (step s e) rest := by
        simp [run]
      have hout : outChunks (e :: rest) = outChunks [e] ++ outChunks rest := by
        cases e <;> simp [outChunks, List.filterMap_cons]
      have herr : errChunks (e :: rest) = errChunks [e] ++ errChunks rest := by
        cases e <;> simp [errChunks, List.filterMap_cons]
      constructor
      · rw [hrun, hrest.1, hstep.1, hout]
        simp [List.append_assoc]
      · rw [hrun, hrest.2, hstep.2, herr]
        simp [List.append_assoc]

theorem flatten_slice {α : Type} (L : List (List α)) (i : Nat) :
    L.getD i [] =
      (L.flatten.drop ((L.take i).flatten.length)).take (L.getD i []).length := by
  by_cases h : i < L.length
  · have hgetD : L.getD i [] = L.get ⟨i, h⟩ := by
      simp [List.getD_eq_getElem?_getD, List.getElem?_eq_getElem h]
    have hsplit : L.flatten = (L.take i).flatten ++ (L.drop i).flatten := by
      rw [← List.flatten_append, List.take_append_drop]
    have hdrop : L.flatten.drop ((L.take i).flatten.length) = (L.drop i).flatten := by
      rw [hsplit, List.drop_left]
    rw [hdrop, List.drop_eq_getElem_cons h, hgetD, List.flatten_cons,
      List.get_eq_getElem]
    exact (List.take_left' rfl).symm
  · have hnone : L[i]? = none := by
      simp [List.getElem?_eq_none_iff]; omega
    simp [List.getD_eq_getElem?_getD, hnone]

/-- Claim C1: for any interleaving of drain-task enqueues and
`write_contents` calls whose last event is a final flush, the
concatenation of all byte sequences delivered via the stdout callback
equals exactly the concatenation of the chunks the stdout drain task
read from the child, in order (no byte duplicated or lost), and each
individual delivery is the contiguous, non-overlapping slice of that
full output starting right after the bytes already delivered; the same
holds for stderr. -/
theorem flush_delivers_all_bytes_exactly_once (evs : List Ev) :
    (run SysState.initial (evs ++ [Ev.flush])).outDeliv.flatten
        = (outChunks evs).flatten ∧
    (run SysState.initial (evs ++ [Ev.flush])).errDeliv.flatten
        = (errChunks evs).flatten ∧
    (∀ i : Nat,
      (run SysState.initial (evs ++ [Ev.flush])).outDeliv.getD i [] =
        ((run SysState.initial (evs ++ [Ev.flush])).outDeliv.flatten.drop
            (((run SysState.initial (evs ++ [Ev.flush])).outDeliv.take i).flatten.length)).take
          ((run SysState.initial (evs ++ [Ev.flush])).outDeliv.getD i []).length) ∧
    (∀ i : Nat,
      (run SysState.initial (evs ++ [Ev.flush])).errDeliv.getD i [] =
        ((run SysState.initial (evs ++ [Ev.flush])).errDeliv.flatten.drop
            (((run SysState.initial (evs ++ [Ev.flush])).errDeliv.take i).flatten.length)).take
          ((run SysState.initial (evs ++ [Ev.flush])).errDeliv.getD i []).length) := by
  have hinv := run_deliv_inv (evs ++ [Ev.flush]) SysState.initial
  have hrun1 : run SysState.initial (evs ++ [Ev.flush])
      = step (run SysState.initial evs) Ev.flush := by
    rw [run_append]; rfl
  have hq := step_flush_queues (run SysState.initial evs)
  have hout : outChunks (evs ++ [Ev.flush]) = outChunks evs := by
    simp [outChunks, List.filterMap_append, List.filterMap]
  have herr : errChunks (evs ++ [Ev.flush]) = errChunks evs := by
    simp [errChunks, List.filterMap_append, List.filterMap]
  refine ⟨?_, ?_, fun i => flatten_slice _ i, fun i => flatten_slice _ i⟩
  · rw [hrun1]
    have h1 := hinv.1
    rw [hrun1, hq.1, hout] at h1
    simpa [SysState.initial] using h1
  · rw [hrun1]
    have h2 := hinv.2
    rw [hrun1, hq.2, herr] at h2
    simpa [SysState.initial] using h2

/-! ### The drain task -/

theorem enqueue_output_map_bytes :
    ∀ (chunks : List Chunk) (q0 : List Chunk) (rest : List ReadResult),
      (∀ c ∈ chunks, c ≠ []) →
      enqueue_output (chunks.map ReadResult.bytes ++ rest) q0
        = enqueue_output rest (q0 ++ chunks) := by
  intro chunks
  induction chunks with
  | nil => intro q0 rest _; simp
  | cons c cs ih =>
      intro q0 rest h
      have hc : c ≠ [] := h c (by simp)
      simp only [List.map_cons, List.cons_append, enqueue_output, if_neg hc,
        List.append_eq]
      rw [ih (q0 ++ [c]) rest (fun x hx => h x (by simp [hx]))]
      simp

/-- Claim C3: on a stream whose reads return the non-empty chunks
`chunks` followed by a zero-byte read (end-of-stream), the drain-task
body pushes each chunk as exactly one queue element, in read order, then
closes the stream and terminates; a zero-byte read terminates the loop
immediately (nothing further is ever read, the task is not restarted);
and when every read returns at most 4096 bytes, every queue element is
at most 4096 bytes. -/
theorem drain_task_enqueues_in_order (chunks : List Chunk)
    (q0 : List Chunk) (h : ∀ c ∈ chunks, c ≠ []) :
    enqueue_output (chunks.map ReadResult.bytes ++ [ReadResult.bytes []]) q0
        = ⟨q0 ++ chunks, TaskEnd.closedStream⟩ ∧
    (∀ rest : List ReadResult,
      enqueue_output (ReadResult.bytes [] :: rest) q0 = ⟨q0, TaskEnd.closedStream⟩) ∧
    ((∀ c ∈ q0, c.length ≤ 4096) → (∀ c ∈ chunks, c.length ≤ 4096) →
      ∀ c ∈ (enqueue_output (chunks.map ReadResult.bytes ++ [ReadResult.bytes []])
          q0).queue, c.length ≤ 4096) := by
  have h1 : enqueue_output (chunks.map ReadResult.bytes ++ [ReadResult.bytes []]) q0
      = ⟨q0 ++ chunks, TaskEnd.closedStream⟩ := by
    rw [enqueue_output_map_bytes chunks q0 _ h]
    simp [enqueue_output]
  refine ⟨h1, fun rest => by simp [enqueue_output], ?_⟩
  intro hq0 hch c hc
  rw [h1] at hc
  rcases List.mem_append.mp hc with hm | hm
  · exact hq0 c hm
  · exact hch c hm

/-- Claim C4: when the `Popen` call inside `RealTimeSubprocess.__init__`
fails, the constructor propagates the spawn error synchronously, and —
since in the constructor body the queue creations and thread starts come
only after the `Popen` call — no drain thread is started and no queue is
created: no resource-creating effect is performed at all. -/
theorem spawn_failure_creates_nothing (e : SpawnError) :
    (RealTimeSubprocess_init (Except.error e)).1 = Except.error e ∧
    (RealTimeSubprocess_init (Except.error e)).2.filter InitEffect.createsResource
      = [] ∧
    (RealTimeSubprocess_init (Except.error e)).2
      = [InitEffect.storedCallbacks, InitEffect.popenCalled] := by
  refine ⟨rfl, ?_, rfl⟩
  simp [RealTimeSubprocess_init, InitEffect.createsResource, List.filter]

/-- Counterexample to claim C5: a drain task whose very first read raises
an I/O error terminates by letting the error escape — the stream is not
closed (the outcome is `raisedError`, not `closedStream`) and nothing is
placed on the queue — so the next `write_contents` call invokes neither
callback: no diagnostic about the error is ever made visible to the
caller through Flush, contradicting the claim that the error is captured
and surfaced there. -/
theorem drain_error_not_surfaced_cex :
    enqueue_output [ReadResult.readError] [] = ⟨[], TaskEnd.raisedError⟩ ∧
    TaskEnd.raisedError ≠ TaskEnd.closedStream ∧
    write_contents [] [] = some ⟨none, none, [], []⟩ := by
  refine ⟨rfl, by decide, ?_⟩
  simp [write_contents_eq]

/-- Claim C5 as amended: when a read raises an I/O error, the drain task
terminates without closing its stream (the error unwinds out of the
drain function, so the `stream.close()` after the loop never runs); the
chunks read before the error remain queued; the other stream's drain
task, running on its own reads, is unaffected and still terminates
normally; and the error itself is not captured anywhere — a subsequent
`write_contents` delivers exactly the buffered data, with no diagnostic
about the error. -/
theorem drain_error_terminates_quietly (chunks errCs : List Chunk)
    (h1 : ∀ c ∈ chunks, c ≠ []) (h2 : ∀ c ∈ errCs, c ≠ []) :
    enqueue_output (chunks.map ReadResult.bytes ++ [ReadResult.readError]) []
        = ⟨chunks, TaskEnd.raisedError⟩ ∧
    enqueue_output (errCs.map ReadResult.bytes ++ [ReadResult.bytes []]) []
        = ⟨errCs, TaskEnd.closedStream⟩ ∧
    write_contents chunks errCs =
      some ⟨if chunks.flatten = [] then none else some chunks.flatten,
            if errCs.flatten = [] then none else some errCs.flatten, [], []⟩ := by
  refine ⟨?_, ?_, write_contents_eq ..⟩
  · rw [enqueue_output_map_bytes chunks [] _ h1]
    simp [enqueue_output]
  · rw [enqueue_output_map_bytes errCs [] _ h2]
    simp [enqueue_output]

theorem enqueue_output_actions_all_put :
    ∀ (t : StreamTag) (reads : List ReadResult),
      (enqueue_output_actions t reads).all Action.isPut = true := by
  intro t reads
  induction reads with
  | nil => rfl
  | cons r rest ih =>
      cases r with
      | bytes c =>
          by_cases hc : c = [] <;>
            simp [enqueue_output_actions, hc, Action.isPut, ih]
      | readError => rfl

/-- Claim C6: in every execution, the actions a drain task performs are
all `queue.put`s — a drain task never invokes a consumer callback — and
the callback invocations are exactly those `write_contents` performs
synchronously (one per stream, and only when the drained bytes are
non-empty). -/
theorem callbacks_only_from_flush (t : StreamTag) (reads : List ReadResult)
    (outq errq : List Chunk) :
    (enqueue_output_actions t reads).all Action.isPut = true ∧
    (write_contents_actions outq errq).filter Action.isCall
      = (if outq.flatten = [] then []
          else [Action.callCb .out outq.flatten]) ++
        (if errq.flatten = [] then []
          else [Action.callCb .err errq.flatten]) := by
  refine ⟨enqueue_output_actions_all_put t reads, ?_⟩
  have hmap : ∀ (t2 : StreamTag) (q : List Chunk),
      (q.map (Action.got t2)).filter Action.isCall = [] := by
    intro t2 q
    refine List.filter_eq_nil_iff.mpr ?_
    intro a ha
    rcases List.mem_map.mp ha with ⟨c, _, rfl⟩
    simp [Action.isCall]
  simp only [write_contents_actions, List.filter_append, hmap]
  by_cases hout : outq.flatten = [] <;> by_cases herr : errq.flatten = [] <;>
    simp [hout, herr, Action.isCall]

/-- Claim C9: within a single `write_contents` call, all actions on the
stdout stream (draining its queue and, if non-empty, invoking the stdout
callback) happen before any action on the stderr stream: the action
trace splits into a stdout part followed by a stderr part. -/
theorem flush_stdout_before_stderr (outq errq : List Chunk) :
    ∃ outPart errPart,
      write_contents_actions outq errq = outPart ++ errPart ∧
      (∀ a ∈ outPart, a.tag = StreamTag.out) ∧
      (∀ a ∈ errPart, a.tag = StreamTag.err) := by
  refine ⟨outq.map (Action.got .out) ++
      (if outq.flatten = [] then [] else [Action.callCb .out outq.flatten]),
    errq.map (Action.got .err) ++
      (if errq.flatten = [] then [] else [Action.callCb .err errq.flatten]),
    ?_, ?_, ?_⟩
  · simp [write_contents_actions, List.append_assoc]
  · intro a ha
    rcases List.mem_append.mp ha with hm | hm
    · rcases List.mem_map.mp hm with ⟨c, _, rfl⟩; rfl
    · by_cases hc : outq.flatten = []
      · rw [if_pos hc] at hm; simp at hm
      · rw [if_neg hc] at hm
        rw [List.mem_singleton.mp hm]; rfl
  · intro a ha
    rcases List.mem_append.mp ha with hm | hm
    · rcases List.mem_map.mp hm with ⟨c, _, rfl⟩; rfl
    · by_cases hc : errq.flatten = []
      · rw [if_pos hc] at hm; simp at hm
      · rw [if_neg hc] at hm
        rw [List.mem_singleton.mp hm]; rfl

theorem enqueue_output_queue_nonempty :
    ∀ (reads : List ReadResult) (q0 : List Chunk),
      (∀ c ∈ q0, c ≠ []) →
      ∀ c ∈ (enqueue_output reads q0).queue, c ≠ [] := by
  intro reads
  induction reads with
  | nil => intro q0 h; simpa [enqueue_output] using h
  | cons r rest ih =>
      intro q0 h
      cases r with
      | bytes c =>
          by_cases hc : c = []
          · simpa [enqueue_output, hc] using h
          · simp only [enqueue_output, if_neg hc]
            refine ih (q0 ++ [c]) ?_
            intro x hx
            rcases List.mem_append.mp hx with hm | hm
            · exact h x hm
            · rw [List.mem_singleton.mp hm]; exact hc
      | readError => simpa [enqueue_output] using h

/-- Claim C8: every chunk a drain task ever places on a queue is
non-empty (the loop stops at the first zero-byte read, before any `put`),
so the concatenation `write_contents` drains is empty exactly when the
queue held zero chunks. -/
theorem queued_chunks_nonempty (reads : List ReadResult) (q0 : List Chunk)
    (h : ∀ c ∈ q0, c ≠ []) :
    (∀ c ∈ (enqueue_output reads q0).queue, c ≠ []) ∧
    ((enqueue_output reads q0).queue.flatten = []
      ↔ (enqueue_output reads q0).queue = []) := by
  have hne := enqueue_output_queue_nonempty reads q0 h
  refine ⟨hne, ?_, fun hq => by rw [hq]; rfl⟩
  intro hfl
  have hall := List.flatten_eq_nil_iff.mp hfl
  cases hq : (enqueue_output reads q0).queue with
  | nil => rfl
  | cons c cs =>
      exact absurd (hall c (by rw [hq]; simp)) (hne c (by rw [hq]; simp))

/-- Claim C10: `write_contents` is idempotent on quiescent buffers — it
leaves both queues empty, so a second call with no enqueues in between
drains nothing, invokes neither callback, and leaves the queues
unchanged. -/
theorem flush_idempotent_on_quiescent (outq errq : List Chunk)
    (r : FlushResult) (h : write_contents outq errq = some r) :
    r.stdoutQueue = [] ∧ r.stderrQueue = [] ∧
    write_contents r.stdoutQueue r.stderrQueue
      = some ⟨none, none, r.stdoutQueue, r.stderrQueue⟩ := by
  rw [write_contents_eq] at h
  have hr := (Option.some.inj h).symm
  subst hr
  refine ⟨rfl, rfl, ?_⟩
  simp [write_contents_eq]

theorem poll_flush_loop_pattern (code : Int) :
    ∀ n : Nat, followsUsagePattern (poll_flush_loop code n) := by
  intro n
  induction n with
  | zero =>
      constructor
      · intro i h
        match i with
        | 0 => simp [poll_flush_loop] at h
        | 1 => simp [poll_flush_loop] at h
        | (i + 2) => simp [poll_flush_loop] at h
      · intro i c h
        match i with
        | 0 => exact ⟨1, by omega, by simp [poll_flush_loop]⟩
        | 1 => simp [poll_flush_loop] at h
        | (i + 2) => simp [poll_flush_loop] at h
  | succ n ih =>
      obtain ⟨ih1, ih2⟩ := ih
      constructor
      · intro i h
        match i with
        | 0 => simp [poll_flush_loop]
        | 1 => simp [poll_flush_loop] at h
        | (i + 2) =>
            have h2 : (poll_flush_loop code n)[i]? = some (CallEv.pollCall none) := by
              simpa [poll_flush_loop] using h
            have h3 := ih1 i h2
            simpa [poll_flush_loop] using h3
      · intro i c h
        match i with
        | 0 => simp [poll_flush_loop] at h
        | 1 => simp [poll_flush_loop] at h
        | (i + 2) =>
            have h2 : (poll_flush_loop code n)[i]? = some (CallEv.pollCall (some c)) := by
              simpa [poll_flush_loop] using h
            obtain ⟨j, hij, hj⟩ := ih2 i c h2
            exact ⟨j + 2, by omega, by simpa [poll_flush_loop] using hj⟩

/-- Claim C7: `CppKernel.do_execute` obeys the required usage pattern for
every process it spawns (the compiler process, and the built binary when
the compile succeeded): a `write_contents` call directly follows every
`poll` that observes the process still running, and after the `poll`
that first reports the exit there is at least one further
`write_contents` call, so trailing output still in flight at exit is
collected. -/
theorem do_execute_follows_usage_pattern (compileCode : Int) (ncompile : Nat)
    (runCode : Int) (nrun : Nat) (tr : List CallEv)
    (h : tr ∈ do_execute_process_traces compileCode ncompile runCode nrun) :
    followsUsagePattern tr := by
  unfold do_execute_process_traces at h
  by_cases hc : compileCode ≠ 0
  · rw [if_pos hc] at h
    rw [List.mem_singleton.mp h]
    exact poll_flush_loop_pattern _ _
  · rw [if_neg hc] at h
    simp only [List.mem_cons, List.mem_singleton, List.not_mem_nil, or_false] at h
    rcases h with h | h <;> (rw [h]; exact poll_flush_loop_pattern _ _)

/-! ### Concrete witnesses -/

/-- Witness for claim C3 at the concrete stream `[1, 2]`, `[3]`,
end-of-stream. -/
theorem drain_task_enqueues_in_order_witness :
    enqueue_output ([[1, 2], [3]].map ReadResult.bytes ++ [ReadResult.bytes []]) []
      = ⟨[[1, 2], [3]], TaskEnd.closedStream⟩ :=
  (drain_task_enqueues_in_order [[1, 2], [3]] [] (by decide)).1

/-- Witness for the amended claim C5 at the concrete stream `[5]`, read
error. -/
theorem drain_error_terminates_quietly_witness :
    enqueue_output ([[5]].map ReadResult.bytes ++ [ReadResult.readError]) []
      = ⟨[[5]], TaskEnd.raisedError⟩ :=
  (drain_error_terminates_quietly [[5]] [[6]] (by decide) (by decide)).1

/-- Witness for claim C7 on the compile-process trace of a successful
compile observed running once. -/
theorem do_execute_usage_witness :
    followsUsagePattern (poll_flush_loop 0 1) :=
  do_execute_follows_usage_pattern 0 1 7 0 (poll_flush_loop 0 1) (by decide)

/-- Witness for claim C8 at a concrete stream with one chunk. -/
theorem queued_chunks_nonempty_witness :
    (enqueue_output [ReadResult.bytes [7], ReadResult.bytes []] []).queue.flatten = []
      ↔ (enqueue_output [ReadResult.bytes [7], ReadResult.bytes []] []).queue = [] :=
  (queued_chunks_nonempty [ReadResult.bytes [7], ReadResult.bytes []] [] (by decide)).2

/-- Witness for claim C10 at a concrete first flush delivering `[1]` on
stdout. -/
theorem flush_idempotent_on_quiescent_witness :
    (⟨some [1], none, [], []⟩ : FlushResult).stdoutQueue = [] ∧
    (⟨some [1], none, [], []⟩ : FlushResult).stderrQueue = [] ∧
    write_contents (⟨some [1], none, [], []⟩ : FlushResult).stdoutQueue
        (⟨some [1], none, [], []⟩ : FlushResult).stderrQueue
      = some ⟨none, none, (⟨some [1], none, [], []⟩ : FlushResult).stdoutQueue,
          (⟨some [1], none, [], []⟩ : FlushResult).stderrQueue⟩ :=
  flush_idempotent_on_quiescent [[1]] [] ⟨some [1], none, [], []⟩ (by decide)

end JupyterCpp
